import Mathlib

/-!
Verification of the spade_tests frame-and-telemetry relay pipeline.

Shallow embedding of the pipeline components from the repository sources:
  * framework/drone_utils.py  (telemetry sampler, haversine, mqtt publisher)
  * framework/rtsp_utils.py   (frame queue, overlay loop, telemetry inbox,
                               offline fallback, pull frame source)
Wall-clock time is modelled as a rational number of seconds; the formatted
second string of a datetime is modelled by its floor.
-/

/-! ## Telemetry sampler time gate
    position_register.onEventChanged, drone_utils.py lines 54-98. -/

/-- Second-granularity formatted timestamp: two datetimes render to the same
string under strftime with seconds resolution exactly when the floors of the
times in seconds agree (drone_utils.py lines 64-65). -/
def secondsForm (t : ℚ) : ℤ := ⌊t⌋

/-- One telemetry event arriving at wall-clock time `t` with last-update state
`last`: first the second-granularity strings are compared (line 66), then the
elapsed interval is compared against the sampling time `Ts` (lines 94-95).
Returns the new `last_update` value and whether a publication occurred
(line 98 updates `last_update` only inside the publish branch).  The message
transport is assumed up on this path. -/
def onEventChanged (Ts last t : ℚ) : ℚ × Bool :=
  if secondsForm t ≠ secondsForm last then
    if Ts ≤ t - last then (t, true) else (last, false)
  else (last, false)

/-- The published event times produced by a sequence of event arrival times,
threading the `last_update` state through `onEventChanged`. -/
def publications (Ts last : ℚ) : List ℚ → List ℚ
  | [] => []
  | t :: ts =>
    if (onEventChanged Ts last t).2 then
      t :: publications Ts (onEventChanged Ts last t).1 ts
    else
      publications Ts (onEventChanged Ts last t).1 ts

theorem onEventChanged_snd_iff (Ts last t : ℚ) :
    (onEventChanged Ts last t).2 = true ↔
      (secondsForm t ≠ secondsForm last ∧ Ts ≤ t - last) := by
  unfold onEventChanged
  split_ifs with h1 h2 <;> simp_all

theorem onEventChanged_fst_eq (Ts last t : ℚ) :
    (onEventChanged Ts last t).1 =
      if (onEventChanged Ts last t).2 = true then t else last := by
  unfold onEventChanged
  split_ifs <;> simp_all

theorem publications_head_ge (Ts : ℚ) :
    ∀ (ts : List ℚ) (last h : ℚ),
      (publications Ts last ts).head? = some h → Ts ≤ h - last := by
  intro ts
  induction ts with
  | nil => intro last h hh; simp [publications] at hh
  | cons t ts ih =>
    intro last h hh
    by_cases hpub : (onEventChanged Ts last t).2 = true
    · have hle : Ts ≤ t - last := ((onEventChanged_snd_iff Ts last t).mp hpub).2
      simp only [publications, hpub, if_true, List.head?_cons, Option.some.injEq] at hh
      exact hh ▸ hle
    · have hfst : (onEventChanged Ts last t).1 = last := by
        rw [onEventChanged_fst_eq, if_neg hpub]
      simp only [publications, hpub, if_false] at hh
      rw [hfst] at hh
      exact ih last h hh

theorem publications_chain (Ts : ℚ) :
    ∀ (ts : List ℚ) (last : ℚ),
      List.Chain' (fun a b => Ts ≤ b - a) (publications Ts last ts) := by
  intro ts
  induction ts with
  | nil => intro last; simp [publications]
  | cons t ts ih =>
    intro last
    by_cases hpub : (onEventChanged Ts last t).2 = true
    · have hfst : (onEventChanged Ts last t).1 = t := by
        rw [onEventChanged_fst_eq, if_pos hpub]
      simp only [publications, hpub, if_true, hfst]
      rw [List.chain'_cons']
      refine ⟨fun b hb => ?_, ih t⟩
      exact publications_head_ge Ts ts t b (Option.mem_def.mp hb)
    · have hfst : (onEventChanged Ts last t).1 = last := by
        rw [onEventChanged_fst_eq, if_neg hpub]
      simp only [publications, hpub, if_false, hfst]
      exact ih last

/-- C1: the sampler publishes only when the second-granularity timestamp
differs from the last registered update and the elapsed time since the last
publication is at least `Ts`; the last-publish state is updated exactly on
publication; hence any two successive publications are at least `Ts` apart. -/
theorem telemetry_sampler_rate_limit (Ts last0 last t : ℚ) (ts : List ℚ) :
    ((onEventChanged Ts last t).2 = true ↔
        (secondsForm t ≠ secondsForm last ∧ Ts ≤ t - last))
    ∧ ((onEventChanged Ts last t).1 =
        if (onEventChanged Ts last t).2 = true then t else last)
    ∧ List.Chain' (fun a b => Ts ≤ b - a) (publications Ts last0 ts) :=
  ⟨onEventChanged_snd_iff Ts last t, onEventChanged_fst_eq Ts last t,
    publications_chain Ts ts last0⟩

/-- C2 counterexample: with `Ts = 1`, sampler started at time `0` (so that
`last_update` is initially `0`), the event trace at times `0`, `0.5`, `1.2`
yields one publication, not the claimed two: the event at `t = 0` shares the
start second and has zero elapsed time, so it is suppressed. -/
theorem sampler_trace_counterexample :
    (publications 1 0 [0, 1/2, 6/5]).length = 1
    ∧ publications 1 0 [0, 1/2, 6/5] ≠ [0, 6/5] := by
  norm_num [publications, onEventChanged, secondsForm]

/-- C2 amended: on the trace of events at `t = 0`, `0.5` and `1.2` seconds from
sampler start with `Ts = 1`, exactly one publication occurs, the event at
`t = 1.2`; the events at `t = 0` and `t = 0.5` are suppressed. -/
theorem sampler_trace_publications :
    publications 1 0 [0, 1/2, 6/5] = [6/5] := by
  norm_num [publications, onEventChanged, secondsForm]

/-! ## Telemetry inbox
    rtsp_processing.on_message, rtsp_utils.py lines 153-165;
    the queue is created with maxsize 50 at line 43. -/

/-- Capacity of the consumer-side telemetry message queue
(rtsp_utils.py line 43). -/
def message_queue_capacity : ℕ := 50

/-- rtsp_processing.on_message: push the received message; when the queue is
full, drop the oldest entry first (lines 161-165). -/
def on_message (cap : ℕ) (q : List ℕ) (m : ℕ) : List ℕ :=
  if q.length < cap then q ++ [m] else q.drop 1 ++ [m]

/-- Deliver a sequence of messages to the inbox in order. -/
def deliverAll (cap : ℕ) (q : List ℕ) (ms : List ℕ) : List ℕ :=
  ms.foldl (on_message cap) q

set_option maxRecDepth 4000 in
/-- C8: delivering messages 1..51 to an initially empty inbox of capacity 50
retains exactly messages 2..51 in their original FIFO order; message 1 is
dropped. -/
theorem telemetry_inbox_drop_oldest :
    deliverAll message_queue_capacity [] (List.range' 1 51) = List.range' 2 50 := by
  decide

/-! ## Haversine distance
    position_register.haversine, drone_utils.py lines 39-51. -/

/-- np.deg2rad: degrees to radians. -/
noncomputable def deg2rad (x : ℝ) : ℝ := x * (Real.pi / 180)

/-- position_register.haversine (drone_utils.py lines 46-51): earth radius
6371 km, result converted to meters by the final factor 1000. -/
noncomputable def haversine (initLat initLong currLat currLong : ℝ) : ℝ :=
  2 * 6371 *
      Real.arcsin (Real.sqrt
        (Real.sin ((deg2rad currLat - deg2rad initLat) / 2) ^ 2 +
          Real.cos (deg2rad initLat) * Real.cos (deg2rad currLat) *
            Real.sin ((deg2rad currLong - deg2rad initLong) / 2) ^ 2)) *
    1000

/-- The distance formula exactly as the specification states it:
`d = 2·R·asin(√(sin²(Δlat/2) + cos(lat₀)·cos(lat)·sin²(Δlong/2)))·1000`
with `R = 6371` and angle differences taken in radians. -/
noncomputable def haversineSpecFormula (lat0 long0 lat long : ℝ) : ℝ :=
  2 * 6371 *
      Real.arcsin (Real.sqrt
        (Real.sin ((deg2rad lat - deg2rad lat0) / 2) ^ 2 +
          Real.cos (deg2rad lat0) * Real.cos (deg2rad lat) *
            Real.sin ((deg2rad long - deg2rad long0) / 2) ^ 2)) *
    1000

/-- C9: the haversine computation returns 0 whenever the current coordinates
equal the stored initial coordinates, and in general it computes exactly the
distance formula stated in the specification. -/
theorem haversine_zero_and_formula :
    (∀ lat long : ℝ, haversine lat long lat long = 0)
    ∧ (∀ a b c d : ℝ, haversine a b c d = haversineSpecFormula a b c d) := by
  constructor
  · intro lat long
    simp [haversine]
  · intro a b c d
    rfl

/-! ## Pull frame source
    restreaming.buffer_callback and restreaming.on_need_data,
    rtsp_utils.py lines 230-262.  Arrived relay messages queue up in the
    transport subscription and `get_message` hands the next pending one to
    `buffer_callback`, which overwrites the single-slot cache `self.frame`. -/

/-- A frame held in the single-slot cache: the NO SIGNAL placeholder or the
decoded payload of relay message `m`. -/
inductive PFrame where
  | offline
  | live (m : ℕ)
deriving DecidableEq

/-- State of the pull frame source: the cached frame (initially absent), the
relay messages arrived but not yet handled by `get_message`, and the processed
frame counter `number_frames`. -/
structure PullState where
  frame : Option PFrame
  pending : List ℕ
  numberFrames : ℕ
deriving DecidableEq

/-- `stream_fps` as configured for the restream output
(spade_restream_module.py line 17; rtsp_utils.py line 46 uses the same 30). -/
def configured_fps : ℕ := 30

/-- Gst.SECOND in nanoseconds. -/
def gstSecond : ℕ := 1000000000

/-- The per-frame duration stored into the buffer duration field at
rtsp_utils.py line 257: `(1 / 30) * Gst.SECOND` truncated into the integral
field; the hardcoded 30 coincides with the configured fps. -/
def frame_duration : ℕ := gstSecond / configured_fps

def initPullState : PullState := ⟨none, [], 0⟩

/-- restreaming.on_need_data (rtsp_utils.py lines 246-262): one `get_message`
per loop pass; when the cache is still empty the pass substitutes the offline
frame and loops once more (line 250-252); the emitted buffer carries
`pts = dts = number_frames * duration` (lines 258-259) and the counter is
incremented (line 260). -/
def on_need_data (s : PullState) : PullState × (PFrame × ℕ) :=
  match s.pending with
  | m :: rest =>
      (⟨some (PFrame.live m), rest, s.numberFrames + 1⟩,
        (PFrame.live m, s.numberFrames * frame_duration))
  | [] =>
      match s.frame with
      | some f =>
          (⟨some f, [], s.numberFrames + 1⟩, (f, s.numberFrames * frame_duration))
      | none =>
          (⟨some PFrame.offline, [], s.numberFrames + 1⟩,
            (PFrame.offline, s.numberFrames * frame_duration))

/-- External events seen by the pull frame source: a relay message arrival or
a `need-data` pull from the media server. -/
inductive RelayEvent where
  | arrive (m : ℕ)
  | pull
deriving DecidableEq

/-- Run the pull frame source over a sequence of events, collecting the
emitted (frame, timestamp) pairs, one per pull. -/
def pullRun (s : PullState) : List RelayEvent → List (PFrame × ℕ)
  | [] => []
  | RelayEvent.arrive m :: evs =>
      pullRun ⟨s.frame, s.pending ++ [m], s.numberFrames⟩ evs
  | RelayEvent.pull :: evs =>
      (on_need_data s).2 :: pullRun (on_need_data s).1 evs

/-- The state of the pull frame source after a sequence of events. -/
def pullRunState (s : PullState) : List RelayEvent → PullState
  | [] => s
  | RelayEvent.arrive m :: evs =>
      pullRunState ⟨s.frame, s.pending ++ [m], s.numberFrames⟩ evs
  | RelayEvent.pull :: evs => pullRunState (on_need_data s).1 evs

def countPulls (evs : List RelayEvent) : ℕ :=
  (evs.filter (fun e => e = RelayEvent.pull)).length

theorem pullRun_append (pre post : List RelayEvent) :
    ∀ s : PullState,
      pullRun s (pre ++ post) = pullRun s pre ++ pullRun (pullRunState s pre) post := by
  induction pre with
  | nil => intro s; simp [pullRun, pullRunState]
  | cons e pre ih =>
    intro s
    cases e with
    | arrive m => simp [pullRun, pullRunState, ih]
    | pull => simp [pullRun, pullRunState, ih]

theorem on_need_data_numberFrames (s : PullState) :
    (on_need_data s).1.numberFrames = s.numberFrames + 1
    ∧ (on_need_data s).2.2 = s.numberFrames * frame_duration := by
  unfold on_need_data
  cases hp : s.pending with
  | nil => cases hf : s.frame <;> simp
  | cons m rest => simp

theorem pullRun_timestamps :
    ∀ (evs : List RelayEvent) (s : PullState),
      (pullRun s evs).map Prod.snd =
        (List.range' s.numberFrames (countPulls evs)).map
          (fun k => k * frame_duration) := by
  intro evs
  induction evs with
  | nil => intro s; simp [pullRun, countPulls]
  | cons e evs ih =>
    intro s
    cases e with
    | arrive m =>
      have hc : countPulls (RelayEvent.arrive m :: evs) = countPulls evs := by
        simp [countPulls]
      rw [hc]
      simpa only [pullRun] using ih ⟨s.frame, s.pending ++ [m], s.numberFrames⟩
    | pull =>
      have hc : countPulls (RelayEvent.pull :: evs) = countPulls evs + 1 := by
        simp [countPulls]
      rw [hc, List.range'_succ]
      simp only [pullRun, List.map_cons]
      rw [(on_need_data_numberFrames s).2, ih ((on_need_data s).1),
        (on_need_data_numberFrames s).1]

theorem pullRun_head_ts :
    ∀ (evs : List RelayEvent) (s : PullState) (o : PFrame × ℕ),
      (pullRun s evs).head? = some o → o.2 = s.numberFrames * frame_duration := by
  intro evs
  induction evs with
  | nil => intro s o h; simp [pullRun] at h
  | cons e evs ih =>
    intro s o h
    cases e with
    | arrive m =>
      simp only [pullRun] at h
      exact ih ⟨s.frame, s.pending ++ [m], s.numberFrames⟩ o h
    | pull =>
      simp only [pullRun, List.head?_cons, Option.some.injEq] at h
      rw [← h]
      exact (on_need_data_numberFrames s).2

theorem pullRun_ts_chain :
    ∀ (evs : List RelayEvent) (s : PullState),
      List.Chain' (fun a b : PFrame × ℕ => b.2 = a.2 + frame_duration)
        (pullRun s evs) := by
  intro evs
  induction evs with
  | nil => intro s; simp [pullRun]
  | cons e evs ih =>
    intro s
    cases e with
    | arrive m =>
      simp only [pullRun]
      exact ih _
    | pull =>
      simp only [pullRun]
      rw [List.chain'_cons']
      refine ⟨fun b hb => ?_, ih _⟩
      have hb2 := pullRun_head_ts evs (on_need_data s).1 b (Option.mem_def.mp hb)
      rw [hb2, (on_need_data_numberFrames s).1, (on_need_data_numberFrames s).2,
        Nat.add_mul, Nat.one_mul]

theorem pullRun_offline_before_arrival :
    ∀ (evs : List RelayEvent) (s : PullState),
      (∀ e ∈ evs, e = RelayEvent.pull) →
      (s.frame = none ∨ s.frame = some PFrame.offline) → s.pending = [] →
      ∀ o ∈ pullRun s evs, o.1 = PFrame.offline := by
  intro evs
  induction evs with
  | nil => intro s _ _ _ o ho; simp [pullRun] at ho
  | cons e evs ih =>
    intro s hall hf hp o ho
    have he : e = RelayEvent.pull := hall e (List.mem_cons_self e evs)
    subst he
    simp only [pullRun] at ho
    have hstep : on_need_data s =
        (⟨some PFrame.offline, [], s.numberFrames + 1⟩,
          (PFrame.offline, s.numberFrames * frame_duration)) := by
      rcases hf with hf | hf <;> simp [on_need_data, hp, hf]
    rcases List.mem_cons.mp ho with ho | ho
    · rw [ho, hstep]
    · refine ih (on_need_data s).1 (fun x hx => hall x (List.mem_cons_of_mem _ hx)) ?_ ?_ o ho
      · rw [hstep]; right; rfl
      · rw [hstep]

/-- C3: the pull frame source (a) emits timestamps `k * frame_duration` for the
`k`-th pull of the run, strictly increasing by exactly `frame_duration` per
pull regardless of arrival timing, with `frame_duration` one second divided by
the configured fps; (b) every pull issued before any relay message has arrived
emits the placeholder frame; (c) with no message pending, a pull duplicates the
cached frame and leaves the cache unchanged; (d) a pending relay message
overwrites the single-slot cache and the pull emits it. -/
theorem pull_frame_source_behaviour :
    (∀ evs, (pullRun initPullState evs).map Prod.snd =
        (List.range (countPulls evs)).map (fun k => k * frame_duration))
    ∧ (∀ evs, List.Chain' (fun a b : PFrame × ℕ => b.2 = a.2 + frame_duration)
        (pullRun initPullState evs))
    ∧ (∀ pre post s, pullRun s (pre ++ post) =
        pullRun s pre ++ pullRun (pullRunState s pre) post)
    ∧ (∀ evs, (∀ e ∈ evs, e = RelayEvent.pull) →
        ∀ o ∈ pullRun initPullState evs, o.1 = PFrame.offline)
    ∧ (∀ s f, s.pending = [] → s.frame = some f →
        (on_need_data s).2.1 = f ∧ (on_need_data s).1.frame = some f)
    ∧ (∀ s m rest, s.pending = m :: rest →
        (on_need_data s).2.1 = PFrame.live m
        ∧ (on_need_data s).1.frame = some (PFrame.live m)) := by
  refine ⟨fun evs => ?_, fun evs => pullRun_ts_chain evs initPullState,
    fun pre post s => pullRun_append pre post s,
    fun evs h => pullRun_offline_before_arrival evs initPullState h (Or.inl rfl) rfl,
    fun s f hp hf => ?_, fun s m rest hp => ?_⟩
  · rw [pullRun_timestamps evs initPullState, List.range_eq_range']
    rfl
  · constructor <;> simp [on_need_data, hp, hf]
  · constructor <;> simp [on_need_data, hp]

/-- Witness for the hypotheses of `pull_frame_source_behaviour`: a pull on a
quiescent state with a cached live frame re-emits exactly that frame. -/
theorem pull_frame_source_behaviour_witness :
    (on_need_data ⟨some (PFrame.live 7), [], 3⟩).2.1 = PFrame.live 7 :=
  (pull_frame_source_behaviour.2.2.2.2.1 ⟨some (PFrame.live 7), [], 3⟩
    (PFrame.live 7) rfl rfl).1

/-! ## Frame ingest queue flush
    rtsp_processing.yuv_frame_cb (rtsp_utils.py lines 60-62) and
    rtsp_processing.flush_cb (rtsp_utils.py lines 89-94).  The queue is a
    thread-safe FIFO; each queue operation is atomic.  The emptiness check of
    the while loop and the following `get_nowait` are combined into a single
    step, which is observationally equivalent when the only concurrent
    operations are enqueues (appends never falsify a non-emptiness
    observation).  The `return True` after the loop is its own step, so an
    enqueue may land between the final emptiness check and the return.
    Reference counts are relative to the pre-enqueue baseline 0; the producer
    callback refs the frame and enqueues it in one step. -/

/-- Program counter of the single flush execution: about to test the loop
condition, about to unref a frame already popped, about to return, or
returned. -/
inductive FlushPC where
  | check
  | unref (h : ℕ)
  | ret
  | finished
deriving DecidableEq

structure FlushState where
  queue : List ℕ
  rc : ℕ → ℤ
  removed : List ℕ
  pc : FlushPC
  enqueued : List ℕ

/-- One interleaved step: a producer enqueue of frame `f`, or the next atomic
step of the flush execution. -/
inductive QStep where
  | enqueue (f : ℕ)
  | flushStep
deriving DecidableEq

def stepQ (s : FlushState) : QStep → FlushState
  | QStep.enqueue f =>
      { s with queue := s.queue ++ [f],
               rc := fun x => if x = f then s.rc x + 1 else s.rc x,
               enqueued := s.enqueued ++ [f] }
  | QStep.flushStep =>
      match s.pc with
      | FlushPC.check =>
          match s.queue with
          | [] => { s with pc := FlushPC.ret }
          | h :: t => { s with queue := t, pc := FlushPC.unref h }
      | FlushPC.unref h =>
          { s with rc := fun x => if x = h then s.rc x - 1 else s.rc x,
                   removed := s.removed ++ [h],
                   pc := FlushPC.check }
      | FlushPC.ret => { s with pc := FlushPC.finished }
      | FlushPC.finished => s

def runQ (s : FlushState) : List QStep → FlushState
  | [] => s
  | st :: sts => runQ (stepQ s st) sts

def initFlush : FlushState :=
  { queue := [], rc := fun _ => 0, removed := [], pc := FlushPC.check,
    enqueued := [] }

/-- The frame popped by the flush loop but not yet unreffed, if any. -/
def heldOf : FlushPC → List ℕ
  | FlushPC.unref h => [h]
  | _ => []

/-- The ids carried by the enqueue steps of a schedule, in order. -/
def enqueuedIds : List QStep → List ℕ
  | [] => []
  | QStep.enqueue f :: sts => f :: enqueuedIds sts
  | QStep.flushStep :: sts => enqueuedIds sts

/-- Invariant tying a state to its enqueue history. -/
def FlushInv (s : FlushState) : Prop :=
  s.removed ++ heldOf s.pc ++ s.queue = s.enqueued
  ∧ s.enqueued.Nodup
  ∧ (∀ f, s.rc f = if f ∈ heldOf s.pc ++ s.queue then 1 else 0)

theorem flushInv_step (s : FlushState) (st : QStep)
    (hinv : FlushInv s)
    (hfresh : ∀ f, st = QStep.enqueue f → f ∉ s.enqueued) :
    FlushInv (stepQ s st) := by
  obtain ⟨q, rc, rem, pc, enq⟩ := s
  obtain ⟨hpart, hnodup, hrc⟩ := hinv
  dsimp only at hpart hnodup hrc hfresh
  cases st with
  | enqueue f =>
    have hf : f ∉ enq := hfresh f rfl
    unfold FlushInv
    dsimp only [stepQ]
    refine ⟨?_, ?_, ?_⟩
    · rw [← hpart]
      simp [List.append_assoc]
    · rw [List.nodup_append]
      refine ⟨hnodup, List.nodup_singleton f, ?_⟩
      intro a ha hb
      rw [List.mem_singleton] at hb
      subst hb
      exact hf ha
    · intro x
      by_cases hx : x = f
      · have hnotf : f ∉ heldOf pc ++ q := by
          intro hmem
          apply hf
          rw [← hpart, List.append_assoc]
          exact List.mem_append_right rem hmem
        have hin : f ∈ heldOf pc ++ (q ++ [f]) := by simp
        rw [if_pos hx, hx, hrc f, if_neg hnotf, if_pos hin]
        norm_num
      · have hiff : (x ∈ heldOf pc ++ (q ++ [f])) ↔ x ∈ heldOf pc ++ q := by
          simp [List.mem_append, hx]
        rw [if_neg hx, hrc x]
        by_cases hm : x ∈ heldOf pc ++ q
        · rw [if_pos hm, if_pos (hiff.mpr hm)]
        · rw [if_neg hm, if_neg (fun hc => hm (hiff.mp hc))]
  | flushStep =>
    cases pc with
    | check =>
      cases q with
      | nil =>
        unfold FlushInv
        dsimp only [stepQ, heldOf]
        dsimp only [heldOf] at hpart hrc
        exact ⟨hpart, hnodup, hrc⟩
      | cons h t =>
        unfold FlushInv
        dsimp only [stepQ, heldOf]
        dsimp only [heldOf] at hpart hrc
        refine ⟨?_, hnodup, ?_⟩
        · simpa using hpart
        · intro f
          simpa using hrc f
    | unref h =>
      dsimp only [heldOf] at hpart hrc
      have hnodup2 : (rem ++ [h] ++ q).Nodup := by
        rw [hpart]; exact hnodup
      have hhq : h ∉ q := by
        rw [List.append_assoc, List.nodup_append] at hnodup2
        have h2 := hnodup2.2.1
        rw [List.singleton_append, List.nodup_cons] at h2
        exact h2.1
      unfold FlushInv
      dsimp only [stepQ, heldOf]
      refine ⟨?_, hnodup, ?_⟩
      · simpa [List.append_assoc] using hpart
      · intro f
        by_cases hf : f = h
        · have h1 : rc h = 1 := by
            rw [hrc h, if_pos]
            simp
          have hnm : h ∉ ([] : List ℕ) ++ q := by simpa using hhq
          rw [if_pos hf, hf, h1, if_neg hnm]
          norm_num
        · have hiff : (f ∈ [h] ++ q) ↔ f ∈ ([] : List ℕ) ++ q := by
            simp [hf]
          rw [if_neg hf, hrc f]
          by_cases hm : f ∈ [h] ++ q
          · rw [if_pos hm, if_pos (hiff.mp hm)]
          · rw [if_neg hm, if_neg (fun hc => hm (hiff.mpr hc))]
    | ret =>
      unfold FlushInv
      dsimp only [stepQ, heldOf]
      dsimp only [heldOf] at hpart hrc
      exact ⟨hpart, hnodup, hrc⟩
    | finished =>
      unfold FlushInv
      dsimp only [stepQ, heldOf]
      dsimp only [heldOf] at hpart hrc
      exact ⟨hpart, hnodup, hrc⟩

theorem stepQ_enqueued (s : FlushState) (st : QStep) :
    (stepQ s st).enqueued = s.enqueued ++ enqueuedIds [st] := by
  obtain ⟨q, rc, rem, pc, enq⟩ := s
  cases st with
  | enqueue f => simp [stepQ, enqueuedIds]
  | flushStep =>
    cases pc with
    | check =>
      cases q with
      | nil => simp [stepQ, enqueuedIds]
      | cons h t => simp [stepQ, enqueuedIds]
    | unref h => simp [stepQ, enqueuedIds]
    | ret => simp [stepQ, enqueuedIds]
    | finished => simp [stepQ, enqueuedIds]

theorem flushInv_run :
    ∀ (sts : List QStep) (s : FlushState),
      FlushInv s → (s.enqueued ++ enqueuedIds sts).Nodup →
      FlushInv (runQ s sts) := by
  intro sts
  induction sts with
  | nil => intro s hinv _; exact hinv
  | cons st sts ih =>
    intro s hinv hnd
    rw [runQ]
    refine ih (stepQ s st) (flushInv_step s st hinv ?_) ?_
    · intro f hst hmem
      subst hst
      simp only [enqueuedIds] at hnd
      rw [List.nodup_append] at hnd
      exact (hnd.2.2 hmem) (List.mem_cons_self f _)
    · rw [stepQ_enqueued]
      cases st with
      | enqueue f =>
        simpa [enqueuedIds, List.append_assoc] using hnd
      | flushStep =>
        simpa [enqueuedIds] using hnd

theorem runQ_append (a b : List QStep) :
    ∀ s, runQ s (a ++ b) = runQ (runQ s a) b := by
  induction a with
  | nil => intro s; simp [runQ]
  | cons st a ih => intro s; simp only [List.cons_append, runQ]; exact ih _

theorem enqueuedIds_append (a b : List QStep) :
    enqueuedIds (a ++ b) = enqueuedIds a ++ enqueuedIds b := by
  induction a with
  | nil => simp [enqueuedIds]
  | cons st a ih =>
    cases st with
    | enqueue f => simp [enqueuedIds, ih]
    | flushStep => simp [enqueuedIds, ih]

theorem enqueuedIds_map_enqueue (fs : List ℕ) :
    enqueuedIds (fs.map QStep.enqueue) = fs := by
  induction fs with
  | nil => simp [enqueuedIds]
  | cons f fs ih => simp [enqueuedIds, ih]

theorem enqueuedIds_replicate_flush (n : ℕ) :
    enqueuedIds (List.replicate n QStep.flushStep) = [] := by
  induction n with
  | zero => simp [enqueuedIds]
  | succ n ih => simp [List.replicate_succ, enqueuedIds, ih]

theorem flushInv_init : FlushInv initFlush := by
  refine ⟨rfl, List.nodup_nil, fun f => ?_⟩
  simp [initFlush, heldOf]

theorem runQ_enqueues :
    ∀ (fs : List ℕ) (s : FlushState),
      (runQ s (fs.map QStep.enqueue)).queue = s.queue ++ fs
      ∧ (runQ s (fs.map QStep.enqueue)).pc = s.pc := by
  intro fs
  induction fs with
  | nil => intro s; simp [runQ]
  | cons f fs ih =>
    intro s
    simp only [List.map_cons, runQ]
    refine ⟨?_, ?_⟩
    · rw [(ih (stepQ s (QStep.enqueue f))).1]
      show (s.queue ++ [f]) ++ fs = s.queue ++ f :: fs
      simp
    · rw [(ih (stepQ s (QStep.enqueue f))).2]
      rfl

theorem runQ_flushSteps :
    ∀ (q : List ℕ) (s : FlushState), s.queue = q → s.pc = FlushPC.check →
      (runQ s (List.replicate (2 * q.length + 2) QStep.flushStep)).queue = []
      ∧ (runQ s (List.replicate (2 * q.length + 2) QStep.flushStep)).pc
          = FlushPC.finished := by
  intro q
  induction q with
  | nil =>
    intro s hq hpc
    obtain ⟨qq, rc, rem, pc, enq⟩ := s
    dsimp only at hq hpc
    subst hq; subst hpc
    constructor <;> rfl
  | cons h t ih =>
    intro s hq hpc
    obtain ⟨qq, rc, rem, pc, enq⟩ := s
    dsimp only at hq hpc
    subst hq; subst hpc
    have hlen : 2 * (h :: t).length + 2 = (2 * t.length + 2) + 1 + 1 := by
      simp [List.length_cons]
      ring
    rw [hlen, List.replicate_succ, List.replicate_succ]
    simp only [runQ]
    exact ih ⟨t, fun x => if x = h then rc x - 1 else rc x,
      rem ++ [h], FlushPC.check, enq⟩ rfl rfl

/-- C4 counterexample: starting from an empty queue, flush runs its final
emptiness check (seeing the queue empty), a concurrent enqueue of frame 7
lands, then flush executes its return.  Flush has completed, yet the queue is
not empty and the refcount of the concurrently enqueued frame is still one
above its pre-enqueue baseline, so the claim that flush leaves the queue empty
with every previously enqueued frame at baseline even when run concurrently
with an enqueue fails. -/
theorem flush_concurrent_counterexample :
    (runQ initFlush [QStep.flushStep, QStep.enqueue 7, QStep.flushStep]).pc
        = FlushPC.finished
    ∧ (runQ initFlush [QStep.flushStep, QStep.enqueue 7, QStep.flushStep]).queue
        ≠ []
    ∧ (runQ initFlush [QStep.flushStep, QStep.enqueue 7, QStep.flushStep]).rc 7
        ≠ 0 := by
  refine ⟨rfl, ?_, ?_⟩ <;> decide

/-- C4 amended: provided the enqueued frame ids are distinct, every
interleaving of the single flush execution with concurrent enqueues keeps the
partition invariant: the frames flush has released, then the frame it holds
mid-release (if any), then the still-queued frames are exactly the enqueued
frames in FIFO order; no frame is released twice, every released frame is back
at its pre-enqueue baseline refcount, and every held or queued frame holds
exactly one reference.  When flush runs to completion with no enqueue
interleaved after it starts, the queue ends empty and all refcounts are back
at baseline.  (An enqueue interleaved between the final emptiness check and
the return instead leaves that frame queued, as the counterexample shows.) -/
theorem flush_concurrent_enqueue_safety :
    (∀ sts : List QStep, (enqueuedIds sts).Nodup →
        (runQ initFlush sts).removed ++ heldOf (runQ initFlush sts).pc
            ++ (runQ initFlush sts).queue = (runQ initFlush sts).enqueued
        ∧ (runQ initFlush sts).removed.Nodup
        ∧ (∀ f, (runQ initFlush sts).rc f =
            if f ∈ heldOf (runQ initFlush sts).pc ++ (runQ initFlush sts).queue
            then 1 else 0))
    ∧ (∀ fs : List ℕ, fs.Nodup →
        (runQ initFlush (fs.map QStep.enqueue
            ++ List.replicate (2 * fs.length + 2) QStep.flushStep)).queue = []
        ∧ (runQ initFlush (fs.map QStep.enqueue
            ++ List.replicate (2 * fs.length + 2) QStep.flushStep)).pc
            = FlushPC.finished
        ∧ (∀ f, (runQ initFlush (fs.map QStep.enqueue
            ++ List.replicate (2 * fs.length + 2) QStep.flushStep)).rc f = 0)) := by
  have main : ∀ sts : List QStep, (enqueuedIds sts).Nodup →
      FlushInv (runQ initFlush sts) := by
    intro sts hnd
    refine flushInv_run sts initFlush flushInv_init ?_
    simpa [initFlush] using hnd
  constructor
  · intro sts hnd
    obtain ⟨hpart, hnodupE, hrc⟩ := main sts hnd
    refine ⟨hpart, ?_, hrc⟩
    have : ((runQ initFlush sts).removed
        ++ (heldOf (runQ initFlush sts).pc ++ (runQ initFlush sts).queue)).Nodup := by
      rw [← List.append_assoc, hpart]
      exact hnodupE
    exact this.of_append_left
  · intro fs hnd
    have hq0 := runQ_enqueues fs initFlush
    have hflush := runQ_flushSteps fs (runQ initFlush (fs.map QStep.enqueue))
      (by rw [hq0.1]; rfl) (by rw [hq0.2]; rfl)
    have hlen : fs.length = (runQ initFlush (fs.map QStep.enqueue)).queue.length := by
      rw [hq0.1]
      simp [initFlush]
    rw [runQ_append]
    have hndall : (enqueuedIds (fs.map QStep.enqueue
        ++ List.replicate (2 * fs.length + 2) QStep.flushStep)).Nodup := by
      rw [enqueuedIds_append, enqueuedIds_map_enqueue, enqueuedIds_replicate_flush]
      simpa using hnd
    obtain ⟨hpart, hnodupE, hrc⟩ := main _ hndall
    rw [runQ_append] at hpart hrc
    have hqueue : (runQ (runQ initFlush (fs.map QStep.enqueue))
        (List.replicate (2 * fs.length + 2) QStep.flushStep)).queue = [] := by
      rw [hlen] at hflush ⊢
      exact hflush.1
    have hpc : (runQ (runQ initFlush (fs.map QStep.enqueue))
        (List.replicate (2 * fs.length + 2) QStep.flushStep)).pc
        = FlushPC.finished := by
      rw [hlen] at hflush ⊢
      exact hflush.2
    refine ⟨hqueue, hpc, fun f => ?_⟩
    rw [hrc f, hqueue, hpc]
    simp [heldOf]

/-- Witness for the hypotheses of `flush_concurrent_enqueue_safety`: with one
frame enqueued and flush run to completion the drained frames are
duplicate-free. -/
theorem flush_concurrent_enqueue_safety_witness :
    (runQ initFlush [QStep.enqueue 3, QStep.flushStep, QStep.flushStep,
        QStep.flushStep, QStep.flushStep]).removed.Nodup :=
  (flush_concurrent_enqueue_safety.1 [QStep.enqueue 3, QStep.flushStep,
      QStep.flushStep, QStep.flushStep, QStep.flushStep] (by decide)).2.1

/-! ## Overlay processing loop and offline fallback
    rtsp_processing.yuv_frame_processing (rtsp_utils.py lines 64-87),
    rtsp_processing.offline_mode (lines 130-141) and
    rtsp_processing.run_stream (lines 143-151). -/

/-- Externally visible actions of one processing-loop run: reading the shared
stream event at line 73, and publishing an overlaid frame on the relay channel
at line 86. -/
inductive LoopAction where
  | observe (b : Bool)
  | publish (f : ℕ)
deriving DecidableEq

/-- rtsp_processing.yuv_frame_processing, one thread, transport assumed up.
Each iteration input is the pair (result of `frame_queue.get`, value that
`stream_flag_event.is_set()` returns in that iteration).  A `queue.Empty`
timeout continues before the flag is read (lines 68-71); otherwise the flag is
read (line 73) and then the dequeued frame is processed and published
(lines 74-87), after which the while condition re-checks the stored flag. -/
def yuv_frame_processing : Bool → List (Option ℕ × Bool) → List LoopAction
  | _, [] => []
  | true, _ :: _ => []
  | false, (none, _) :: rest => yuv_frame_processing false rest
  | false, (some f, flagNow) :: rest =>
      LoopAction.observe flagNow :: LoopAction.publish f ::
        yuv_frame_processing flagNow rest

/-- The only payload offline_mode can emit: the encoded full_sigmund
placeholder image (rtsp_utils.py lines 139-140). -/
inductive OfflineOutput where
  | placeholder
deriving DecidableEq

/-- rtsp_processing.offline_mode: while the stored flag is true, re-read the
event and publish the placeholder (lines 136-141); the input list is the
successive values returned by `is_set()`. -/
def offline_mode : Bool → List Bool → List OfflineOutput
  | false, _ => []
  | true, [] => []
  | true, b :: rest => OfflineOutput.placeholder :: offline_mode b rest

/-- C5 counterexample: an iteration that dequeues frame 0 and observes the
completion signal set still publishes that frame after the observation, so the
claim that no live frame is ever published once the signal has been observed
set fails. -/
theorem offline_transition_counterexample :
    ¬ (∀ pre post, yuv_frame_processing false [(some 0, true)]
          = pre ++ LoopAction.observe true :: post →
        ∀ f, LoopAction.publish f ∉ post) := by
  intro h
  exact h [] [LoopAction.publish 0] rfl 0 (List.mem_singleton_self _)

theorem yuv_frame_processing_after_observe_true :
    ∀ (inputs : List (Option ℕ × Bool)) (flag : Bool) (pre post : List LoopAction),
      yuv_frame_processing flag inputs = pre ++ LoopAction.observe true :: post →
      ∃ f, post = [LoopAction.publish f] := by
  intro inputs
  induction inputs with
  | nil =>
    intro flag pre post h
    rw [show yuv_frame_processing flag [] = [] from by cases flag <;> rfl] at h
    exact absurd h.symm (by simp)
  | cons p rest ih =>
    intro flag pre post h
    cases flag with
    | true =>
      rw [show yuv_frame_processing true (p :: rest) = [] from rfl] at h
      exact absurd h.symm (by simp)
    | false =>
      obtain ⟨qres, flagNow⟩ := p
      cases qres with
      | none =>
        exact ih false pre post h
      | some f =>
        simp only [yuv_frame_processing] at h
        cases pre with
        | nil =>
          simp only [List.nil_append, List.cons.injEq] at h
          obtain ⟨hobs, hrest⟩ := h
          have hflag : flagNow = true := by
            injection hobs
          subst hflag
          rw [show yuv_frame_processing true rest = [] from by
            cases rest <;> rfl] at hrest
          exact ⟨f, hrest.symm⟩
        | cons a pre2 =>
          simp only [List.cons_append, List.cons.injEq] at h
          obtain ⟨ha, h2⟩ := h
          cases pre2 with
          | nil =>
            simp only [List.nil_append, List.cons.injEq] at h2
            exact absurd h2.1 (by simp)
          | cons b pre3 =>
            simp only [List.cons_append, List.cons.injEq] at h2
            exact ih flagNow pre3 post h2.2

/-- C5 amended: after any iteration of the processing loop observes the
completion signal set, exactly one more live-frame publication occurs, the
frame dequeued in that same iteration, and the loop then terminates, so no
frame dequeued after the observation is ever published; the offline mode that
replaces it emits only the placeholder image. -/
theorem offline_transition_once :
    (∀ (inputs : List (Option ℕ × Bool)) (pre post : List LoopAction),
        yuv_frame_processing false inputs
            = pre ++ LoopAction.observe true :: post →
        ∃ f, post = [LoopAction.publish f])
    ∧ (∀ (start : Bool) (flags : List Bool) (o : OfflineOutput),
        o ∈ offline_mode start flags → o = OfflineOutput.placeholder) := by
  constructor
  · intro inputs pre post h
    exact yuv_frame_processing_after_observe_true inputs false pre post h
  · intro start flags o _
    cases o
    rfl

/-- Witness for the hypotheses of `offline_transition_once`: on the input
trace that dequeues frame 5 and observes the signal set, the action suffix
after the observation is a single publication. -/
theorem offline_transition_once_witness :
    ([LoopAction.publish 5] : List LoopAction).length = 1 := by
  obtain ⟨f, hf⟩ := offline_transition_once.1 [(some 5, true)] []
    [LoopAction.publish 5] rfl
  rw [hf]
  rfl

/-! ## Frame release on the overlay loop exit paths
    rtsp_processing.yuv_frame_processing (rtsp_utils.py lines 74-87): the
    stages that run between dequeuing a frame and the final unref. -/

/-- The fallible stages of one dequeued-frame iteration, in program order:
to_ndarray (line 74), the telemetry inbox read (lines 77-81), add_text_image
(line 83), cv2.imencode (line 85) and the relay publish (line 86). -/
inductive OverlayStage where
  | toNdarray
  | getTelemetry
  | addText
  | encode
  | publishRelay
deriving DecidableEq

def overlayStages : List OverlayStage :=
  [OverlayStage.toNdarray, OverlayStage.getTelemetry, OverlayStage.addText,
    OverlayStage.encode, OverlayStage.publishRelay]

/-- Run the stages in order; a stage equal to `failsAt` raises and aborts the
rest of the iteration.  Returns the completed stages and whether an exception
escaped. -/
def runStagesAux (failsAt : Option OverlayStage) :
    List OverlayStage → List OverlayStage × Bool
  | [] => ([], false)
  | s :: rest =>
    if failsAt = some s then ([], true)
    else ((s :: (runStagesAux failsAt rest).1), (runStagesAux failsAt rest).2)

structure IterationOutcome where
  published : Bool
  released : Bool
  raised : Bool
deriving DecidableEq

/-- One dequeued-frame iteration of yuv_frame_processing: the frame is
published when the publish stage completed without an exception, and is
unreffed (line 87) only when control reaches the end of the iteration body,
i.e. when no stage raised — there is no try/finally around the body. -/
def overlayIteration (failsAt : Option OverlayStage) : IterationOutcome :=
  { published :=
      (runStagesAux failsAt overlayStages).1.contains OverlayStage.publishRelay
        && !(runStagesAux failsAt overlayStages).2,
    released := !(runStagesAux failsAt overlayStages).2,
    raised := (runStagesAux failsAt overlayStages).2 }

/-- C6: the frame dequeued by the overlay loop is NOT released when any stage
of the iteration raises — in particular when JPEG encoding fails — while on
the success path it is released and published; the spec requirement of release
on every exit path is violated by the code. -/
theorem overlay_release_on_exit_paths :
    (∀ s : OverlayStage, (overlayIteration (some s)).released = false
        ∧ (overlayIteration (some s)).raised = true)
    ∧ (overlayIteration (some OverlayStage.encode)).released = false
    ∧ (overlayIteration none).released = true
    ∧ (overlayIteration none).published = true := by
  refine ⟨fun s => ?_, by decide, by decide, by decide⟩
  cases s <;> exact ⟨by decide, by decide⟩

/-! ## Telemetry and camera-snapshot messages, mqtt publisher
    position_register.onEventChanged (drone_utils.py lines 64-98) and
    position_register.mqtt_publisher (lines 108-121).  The message dictionaries
    are modelled with an explicit key order and an `ordered` flag telling
    whether the object is an OrderedDict (olympe state mappings are; the plain
    dict literal of the except branch at line 75 is not, and a plain dict has
    no move_to_end method). -/

inductive MsgKey where
  | time | latitude | longitude | altitude | roll | pitch | yaw
  | speedX | speedY | speedZ | camera_status | zoom | active
deriving DecidableEq

inductive Val where
  | vstr (s : String)
  | vbool (b : Bool)
  | vtime (t : ℕ)
  | vnum (q : ℚ)
deriving DecidableEq

structure PyDict where
  entries : List (MsgKey × Val)
  ordered : Bool
deriving DecidableEq

inductive PyError where
  | attributeError
  | typeError
deriving DecidableEq

/-- dict.update with a single key: replace in place when present, else append
at the end (python dicts preserve insertion order). -/
def dictUpdate (d : PyDict) (k : MsgKey) (v : Val) : PyDict :=
  if (d.entries.map Prod.fst).contains k then
    ⟨d.entries.map (fun e => if e.1 = k then (k, v) else e), d.ordered⟩
  else
    ⟨d.entries ++ [(k, v)], d.ordered⟩

/-- OrderedDict.move_to_end(key, last=False): move the entry to the front;
on a plain dict the attribute does not exist and an AttributeError is raised
(drone_utils.py line 91). -/
def move_to_end_front (d : PyDict) (k : MsgKey) : Except PyError PyDict :=
  if d.ordered then
    Except.ok ⟨d.entries.filter (fun e => e.1 == k)
        ++ d.entries.filter (fun e => !(e.1 == k)), true⟩
  else
    Except.error PyError.attributeError

/-- Camera state when camera2.Event.State has been received. -/
structure CamState where
  zoom : String
  active : Bool
deriving DecidableEq

/-- The camera dictionary of drone_utils.py lines 72-75: the olympe state
mapping (an OrderedDict) when the camera subsystem is initialized, otherwise
the plain-dict default built in the except branch. -/
def cameraDictOf : Option CamState → PyDict
  | some c => ⟨[(MsgKey.zoom, Val.vstr c.zoom), (MsgKey.active, Val.vbool c.active)], true⟩
  | none => ⟨[(MsgKey.zoom, Val.vstr ""), (MsgKey.active, Val.vbool false)], false⟩

/-- Telemetry values re-read from the drone state (lines 67-69); the rounded
attitude and speed values are carried opaquely. -/
structure TelemetryData where
  latitude : ℚ
  longitude : ℚ
  altitude : ℚ
  roll : ℚ
  pitch : ℚ
  yaw : ℚ
  speedX : ℚ
  speedY : ℚ
  speedZ : ℚ
deriving DecidableEq

/-- Dictionary subscript read used at line 87 for camera_dict['active']. -/
def lookupVal (d : PyDict) (k : MsgKey) : Val :=
  ((d.entries.find? (fun e => e.1 == k)).map Prod.snd).getD (Val.vbool false)

/-- The event_message dict literal of drone_utils.py lines 77-87, with the
timestamp as its first key. -/
def eventMessageOf (t : ℕ) (d : TelemetryData) (camActive : Val) : PyDict :=
  ⟨[(MsgKey.time, Val.vtime t),
    (MsgKey.latitude, Val.vnum d.latitude),
    (MsgKey.longitude, Val.vnum d.longitude),
    (MsgKey.altitude, Val.vnum d.altitude),
    (MsgKey.roll, Val.vnum d.roll),
    (MsgKey.pitch, Val.vnum d.pitch),
    (MsgKey.yaw, Val.vnum d.yaw),
    (MsgKey.speedX, Val.vnum d.speedX),
    (MsgKey.speedY, Val.vnum d.speedY),
    (MsgKey.speedZ, Val.vnum d.speedZ),
    (MsgKey.camera_status, camActive)], false⟩

/-- Transport-level actions of one mqtt_publisher call. -/
inductive MqttAction where
  | connect
  | publish (topic : String) (qos : ℕ) (msg : PyDict)
  | disconnect
deriving DecidableEq

/-- position_register.mqtt_publisher (drone_utils.py lines 108-121): connect
to the broker afresh, raise TypeError when connect returns nonzero, publish
with qos=1, then disconnect.  `connectRc` is the return code of the connect
call. -/
def mqtt_publisher (connectRc : ℤ) (msg : PyDict) (topic : String) :
    Except PyError (List MqttAction) :=
  if connectRc ≠ 0 then Except.error PyError.typeError
  else Except.ok [MqttAction.connect, MqttAction.publish topic 1 msg,
    MqttAction.disconnect]

/-- The message-building and publishing path of onEventChanged
(drone_utils.py lines 64-98): when the second-granularity timestamp changed,
build the telemetry message and the camera dictionary, stamp the camera
dictionary with the same timestamp and move it to the front (which raises on
the plain-dict default), then, when the sampling interval has elapsed, publish
the telemetry message and the camera message in that order.  The event occurs
at time `t`; `secondChanged` and `elapsedTs` are the two gate conditions of
lines 66 and 95, and every connect call returns `connectRc`. -/
def onEventChangedEffects (cam : Option CamState) (t : ℕ) (data : TelemetryData)
    (secondChanged elapsedTs : Bool) (connectRc : ℤ)
    (teleTopic camTopic : String) : Except PyError (List MqttAction) :=
  if secondChanged then
    match move_to_end_front
        (dictUpdate (cameraDictOf cam) MsgKey.time (Val.vtime t)) MsgKey.time with
    | Except.error e => Except.error e
    | Except.ok cameraMsg =>
      if elapsedTs then
        match mqtt_publisher connectRc
            (eventMessageOf t data (lookupVal (cameraDictOf cam) MsgKey.active))
            teleTopic with
        | Except.error e => Except.error e
        | Except.ok a1 =>
          match mqtt_publisher connectRc cameraMsg camTopic with
          | Except.error e => Except.error e
          | Except.ok a2 => Except.ok (a1 ++ a2)
      else Except.ok []
  else Except.ok []

/-- C7: when the camera subsystem is initialized, a publication emits two
messages — the telemetry sample first, then the camera snapshot on its own
channel, the snapshot carrying the identical timestamp as its first entry;
but when the camera subsystem has NOT initialized, the handler raises an
AttributeError (the plain-dict default has no move_to_end) instead of
publishing the default snapshot, and nothing is published at all. -/
theorem camera_snapshot_publication (t : ℕ) (data : TelemetryData)
    (elapsedTs : Bool) (rc : ℤ) (c : CamState) (teleTopic camTopic : String) :
    onEventChangedEffects none t data true elapsedTs rc teleTopic camTopic
        = Except.error PyError.attributeError
    ∧ onEventChangedEffects (some c) t data true true 0 teleTopic camTopic
        = Except.ok [MqttAction.connect,
            MqttAction.publish teleTopic 1
              (eventMessageOf t data (Val.vbool c.active)),
            MqttAction.disconnect,
            MqttAction.connect,
            MqttAction.publish camTopic 1
              ⟨[(MsgKey.time, Val.vtime t), (MsgKey.zoom, Val.vstr c.zoom),
                (MsgKey.active, Val.vbool c.active)], true⟩,
            MqttAction.disconnect] := by
  constructor
  · rfl
  · rfl

/-- C10: every publication is a fresh connect, a qos=1 publish and a
disconnect; a nonzero connect return code raises a TypeError that escapes the
telemetry event callback with no retry, so steady-state broker connectivity is
re-established (and can fatally fail) on every single publication. -/
theorem mqtt_per_publication_connect :
    (∀ (rc : ℤ) (msg : PyDict) (topic : String),
        mqtt_publisher rc msg topic =
          if rc ≠ 0 then Except.error PyError.typeError
          else Except.ok [MqttAction.connect, MqttAction.publish topic 1 msg,
            MqttAction.disconnect])
    ∧ (∀ (c : CamState) (t : ℕ) (data : TelemetryData) (rc : ℤ)
        (teleTopic camTopic : String), rc ≠ 0 →
        onEventChangedEffects (some c) t data true true rc teleTopic camTopic
          = Except.error PyError.typeError) := by
  constructor
  · intro rc msg topic
    rfl
  · intro c t data rc teleTopic camTopic hrc
    simp only [onEventChangedEffects, mqtt_publisher, if_pos hrc, if_true]
    rfl

/-- Witness for the hypotheses of `mqtt_per_publication_connect`: with a
connect return code of 1 the handler raises the TypeError out of the
callback. -/
theorem mqtt_per_publication_connect_witness :
    onEventChangedEffects (some ⟨"", false⟩) 0 ⟨0, 0, 0, 0, 0, 0, 0, 0, 0⟩
        true true 1 "telemetry" "camera"
      = Except.error PyError.typeError :=
  mqtt_per_publication_connect.2 ⟨"", false⟩ 0 ⟨0, 0, 0, 0, 0, 0, 0, 0, 0⟩ 1
    "telemetry" "camera" (by decide)
